import Mathlib

/-
Verification of the aggregation and consistency logic of the asset01
personal-finance application (src/App.tsx, src/types.ts).

The embedding is shallow: each state-update handler of the React component
becomes a pure Lean function from the previous in-memory state (and the
externally supplied inputs: prompt results, the clock, the random color
pick) to the next state.  JS numbers are modelled as Int (all claim-level
facts are exact sums and comparisons), JS string-keyed objects as ordered
association lists, and optional record fields as Option.

Date handling: App.tsx's parseDate maps a date string to a millisecond
timestamp via the Date constructor; the code only ever uses these
timestamps for mutual comparison (sorting and at-or-before tests).  The
embedding maps a date y/m/d to the integer y*10000 + m*100 + d, which is
order-isomorphic to the timestamp on well-formed dates, and hence faithful
for every use the code makes of it.  JS string splitting and Number()
conversion are re-implemented by structural recursion over the character
list so that all definitions evaluate inside the kernel.
-/

namespace Asset01

/-- Splits a character list at every occurrence of the separator, like
JS String.prototype.split with a single-character separator. -/
def splitChars (sep : Char) : List Char → List (List Char)
  | [] => [[]]
  | c :: rest =>
    let r := splitChars sep rest
    if c = sep then [] :: r
    else match r with
      | [] => [[c]]
      | g :: gs => (c :: g) :: gs

/-- Numeric value of a decimal digit character, none otherwise. -/
def digitVal (c : Char) : Option Int :=
  if '0' ≤ c ∧ c ≤ '9' then some (Int.ofNat (c.toNat - '0'.toNat)) else none

/-- Value of a non-empty all-digit character list; none models the NaN that
JS Number() produces on a malformed component. -/
def digitsToInt : List Char → Option Int
  | [] => none
  | cs => cs.foldl (fun acc c => match acc, digitVal c with
      | some n, some d => some (n * 10 + d)
      | _, _ => none) (some 0)

/-- App.tsx parseDate: a date containing a dash is parsed as YYYY-MM-DD,
otherwise it is split on a slash as MM/DD with the current year assumed.
The result y*10000 + m*100 + d is order-isomorphic to the JS millisecond
timestamp on well-formed dates; a malformed date is mapped to 0 (the code
never compares malformed dates in the scenarios specified). -/
def parseDate (currentYear : Int) (dateStr : String) : Int :=
  if dateStr.data.contains '-' then
    match (splitChars '-' dateStr.data).map digitsToInt with
    | [some y, some m, some d] => y * 10000 + m * 100 + d
    | _ => 0
  else
    match (splitChars '/' dateStr.data).map digitsToInt with
    | [some m, some d] => currentYear * 10000 + m * 100 + d
    | _ => 0

/-- One snapshot of an asset's value (types.ts HistoryPoint). -/
structure HistoryPoint where
  date : String
  value : Int
  deriving Repr, DecidableEq

/-- One immutable spend-log entry of a budget row (types.ts Transaction). -/
structure Transaction where
  id : String
  amount : Int
  date : String
  note : Option String
  deriving Repr, DecidableEq

/-- An asset record (types.ts Asset).  The category is a plain string; the
liability category is the string constant 负债. -/
structure Asset where
  id : String
  name : String
  category : String
  value : Int
  targetValue : Option Int
  durationMonths : Option Int
  currency : String
  change24h : Option Int
  lastUpdated : String
  color : Option String
  history : List HistoryPoint
  notes : Option String
  deriving Repr, DecidableEq

/-- A budget row (types.ts Budget).  The synthetic aggregate row is the one
whose category is the string constant 总计. -/
structure Budget where
  category : String
  subCategory : Option String
  monthlyAmount : Int
  spentThisMonth : Int
  carryOver : Int
  notes : Option String
  color : Option String
  transactions : Option (List Transaction)
  deriving Repr, DecidableEq

/-- The in-memory application state relevant to the claims: the two
ledgers, the two category registries, the category color map (a JS object,
modelled as an insertion-ordered association list), the two active
category filters and the theme settings. -/
structure AppState where
  assets : List Asset
  budgets : List Budget
  budgetCategoryList : List String
  assetCategoryList : List String
  customCategoryColors : List (String × String)
  selectedAssetCategory : String
  selectedBudgetCategory : String
  themeColor : String
  isAutoTheme : Bool
  deriving Repr, DecidableEq

/-- The two category domains handled by the category management actions. -/
inductive Domain where
  | asset
  | budget
  deriving Repr, DecidableEq

/-- Lookup in a JS-object-as-association-list: first binding wins. -/
def mapLookup (m : List (String × String)) (k : String) : Option String :=
  (m.find? (fun p => p.1 == k)).map Prod.snd

/-- JS object property assignment: updates the binding in place when the
key exists, otherwise appends it. -/
def mapSet (m : List (String × String)) (k v : String) : List (String × String) :=
  if m.any (fun p => p.1 == k) then
    m.map (fun p => if p.1 == k then (k, v) else p)
  else m ++ [(k, v)]

/-- JS delete of an object property. -/
def mapDelete (m : List (String × String)) (k : String) : List (String × String) :=
  m.filter (fun p => !(p.1 == k))

/-- JS short-circuit a || b where a is an optional string: a missing or
empty string is falsy and yields the default. -/
def jsOr (v : Option String) (d : String) : String :=
  match v with
  | some s => if s = "" then d else s
  | none => d

/-- Adds a date to the collection list unless already present, modelling
insertion into a JS Set (first occurrence kept, insertion order). -/
def insertUnique (l : List String) (x : String) : List String :=
  if x ∈ l then l else l ++ [x]

/-- Step 1 of App.tsx globalHistory: collect the set of all dates appearing
in any asset's history, in order of first occurrence. -/
def collectDates (assets : List Asset) : List String :=
  assets.foldl (fun acc a => a.history.foldl (fun acc2 h => insertUnique acc2 h.date) acc) []

/-- The fallback scan of App.tsx globalHistory (the local variable scan):
keeps the latest history point whose parsed time is at or before the
target, starting from the sentinel maxTime of -1. -/
def carryScan (cy tX : Int) (hist : List HistoryPoint) : Int × Option HistoryPoint :=
  hist.foldl
    (fun (acc : Int × Option HistoryPoint) h =>
      let hTime := parseDate cy h.date
      if hTime ≤ tX && hTime > acc.1 then (hTime, some h) else acc)
    (-1, none)

/-- Per-asset contribution of App.tsx globalHistory at one target date:
an exact textual match wins, otherwise the carry-forward scan supplies the
latest at-or-before point, and the contribution is zero when no such point
exists. -/
def assetValueAt (cy : Int) (asset : Asset) (date : String) : Int :=
  match asset.history.find? (fun h => h.date == date) with
  | some h => h.value
  | none =>
    match (carryScan cy (parseDate cy date) asset.history).2 with
    | some h => h.value
    | none => 0

/-- Modelled from the spec (section 4.3 wording, as the reference point of
the refinement): the contribution of an asset at a target time is the
value of its latest snapshot dated at-or-before that time, zero when no
such snapshot exists.  With strictly increasing snapshot times the latest
such snapshot is the last one the filter keeps. -/
def specCarryForwardValue (cy : Int) (hist : List HistoryPoint) (targetTime : Int) : Int :=
  match (hist.filter (fun h => parseDate cy h.date ≤ targetTime)).getLast? with
  | some h => h.value
  | none => 0

/-- Signed accumulation over the assets at one date: liability-category
assets (负债) are subtracted, all others added. -/
def netTotal (cy : Int) (assets : List Asset) (date : String) : Int :=
  assets.foldl
    (fun total asset =>
      let val := assetValueAt cy asset date
      if asset.category = "负债" then total - val else total + val)
    0

/-- App.tsx globalHistory: empty for no assets; otherwise the union of all
history dates, sorted chronologically by parseDate (stable merge sort, as
JS Array.prototype.sort), each mapped to the signed total of the per-asset
carry-forward contributions. -/
def globalHistory (cy : Int) (assets : List Asset) : List HistoryPoint :=
  if assets.isEmpty then []
  else
    let sortedDates := (collectDates assets).mergeSort
      (fun a b => parseDate cy a ≤ parseDate cy b)
    sortedDates.map (fun date => { date := date, value := netTotal cy assets date })

/-- The fields of a Partial Asset update object passed to handleUpdateAsset
(the fields the claims exercise; a missing field leaves the record's field
unchanged on merge). -/
structure AssetUpdates where
  name : Option String := none
  category : Option String := none
  value : Option Int := none
  targetValue : Option Int := none
  durationMonths : Option Int := none
  color : Option String := none
  notes : Option String := none
  deriving Repr, DecidableEq

/-- JS object spread of the update fields over an asset record. -/
def applyAssetUpdates (a : Asset) (u : AssetUpdates) : Asset :=
  { a with
    name := u.name.getD a.name,
    category := u.category.getD a.category,
    value := u.value.getD a.value,
    targetValue := match u.targetValue with | some v => some v | none => a.targetValue,
    durationMonths := match u.durationMonths with | some v => some v | none => a.durationMonths,
    color := match u.color with | some c => some c | none => a.color,
    notes := match u.notes with | some n => some n | none => a.notes }

/-- App.tsx handleUpdateAsset: for the matching id, merge the updates; when
the update carries a value, additionally append a history point dated
today (ISO) with the new value; always refresh lastUpdated to today's
locale date.  Non-matching records are returned unchanged.  todayISO and
todayLocale are the two renderings of the current clock date. -/
def handleUpdateAsset (todayISO todayLocale : String)
    (assets : List Asset) (id : String) (u : AssetUpdates) : List Asset :=
  assets.map fun a =>
    if a.id = id then
      let newValue := u.value.getD a.value
      let newHistory := match u.value with
        | some _ => a.history ++ [{ date := todayISO, value := newValue }]
        | none => a.history
      { applyAssetUpdates a u with history := newHistory, lastUpdated := todayLocale }
    else a

/-- App.tsx AddAssetModal onAdd wiring: appends a fresh asset with a
single-point history dated today and the given value; newId models the
random id, todayISO and todayLocale the clock. -/
def addAsset (assets : List Asset) (newId todayISO todayLocale : String)
    (name category : String) (value : Int)
    (targetValue durationMonths : Option Int) (notes : Option String) : List Asset :=
  assets ++ [{
    id := newId, name := name, category := category, value := value,
    targetValue := targetValue, durationMonths := durationMonths,
    currency := "CNY", change24h := none, lastUpdated := todayLocale,
    color := none,
    history := [{ date := todayISO, value := value }],
    notes := notes }]

/-- App.tsx handleDeleteHistoryPoint (the confirmed path; the confirm()
dialog is an external concern): removes the history point at the given
index from the matching asset via splice(index, 1). -/
def handleDeleteHistoryPoint (assets : List Asset) (assetId : String) (index : Nat) : List Asset :=
  assets.map fun a =>
    if a.id = assetId then { a with history := a.history.eraseIdx index } else a

/-- The fields of a Partial Budget update object passed to
handleUpdateBudget. -/
structure BudgetUpdates where
  category : Option String := none
  subCategory : Option String := none
  monthlyAmount : Option Int := none
  spentThisMonth : Option Int := none
  carryOver : Option Int := none
  notes : Option String := none
  color : Option String := none
  deriving Repr, DecidableEq

/-- JS object spread of the update fields over a budget row. -/
def applyBudgetUpdates (b : Budget) (u : BudgetUpdates) : Budget :=
  { b with
    category := u.category.getD b.category,
    subCategory := match u.subCategory with | some v => some v | none => b.subCategory,
    monthlyAmount := u.monthlyAmount.getD b.monthlyAmount,
    spentThisMonth := u.spentThisMonth.getD b.spentThisMonth,
    carryOver := u.carryOver.getD b.carryOver,
    notes := match u.notes with | some v => some v | none => b.notes,
    color := match u.color with | some v => some v | none => b.color }

/-- Array.prototype.reduce summation of one numeric field. -/
def sumBy (f : Budget → Int) (bs : List Budget) : Int :=
  bs.foldl (fun sum b => sum + f b) 0

/-- The non-total rows of a budget ledger (category different from 总计). -/
def nonTotalRows (bs : List Budget) : List Budget :=
  bs.filter (fun b => !(b.category == "总计"))

/-- JS Array.prototype.findIndex, with none for the -1 result. -/
def findIndex (p : Budget → Bool) : List Budget → Option Nat
  | [] => none
  | b :: rest => if p b then some 0 else (findIndex p rest).map (· + 1)

/-- The recompute-the-total block shared by handleUpdateBudget and
handleDeleteBudget: when a row with category 总计 exists, overwrite its
monthlyAmount and spentThisMonth with the from-scratch sums over all
non-total rows; otherwise leave the ledger unchanged. -/
def recomputeTotal (bs : List Budget) : List Budget :=
  let categoriesOnly := nonTotalRows bs
  match findIndex (fun b => b.category == "总计") bs with
  | none => bs
  | some totalIdx =>
    match bs[totalIdx]? with
    | none => bs
    | some t =>
      bs.set totalIdx { t with
        monthlyAmount := sumBy (·.monthlyAmount) categoriesOnly,
        spentThisMonth := sumBy (·.spentThisMonth) categoriesOnly }

/-- App.tsx handleUpdateBudget: merge the updates into the row at the
index; when the merged row's category is not 总计, recompute the total
row.  An out-of-range index is modelled as a no-op (the claims only
exercise in-range indices). -/
def handleUpdateBudget (budgets : List Budget) (index : Nat) (u : BudgetUpdates) : List Budget :=
  match budgets[index]? with
  | none => budgets
  | some row =>
    let newRow := applyBudgetUpdates row u
    let newBudgets := budgets.set index newRow
    if !(newRow.category == "总计") then recomputeTotal newBudgets else newBudgets

/-- App.tsx handleSaveTotalLimit: when the entered text parses to a number
(parsedLimit is the parseFloat result, none for NaN) and a total row
exists, set that row's monthlyAmount through handleUpdateBudget. -/
def handleSaveTotalLimit (budgets : List Budget) (parsedLimit : Option Int) : List Budget :=
  match parsedLimit with
  | none => budgets
  | some val =>
    match findIndex (fun b => b.category == "总计") budgets with
    | none => budgets
    | some totalIdx => handleUpdateBudget budgets totalIdx { monthlyAmount := some val }

/-- App.tsx handleDeleteBudget (the confirmed path): remove the row at the
editing index, then recompute the total row if one remains. -/
def handleDeleteBudget (budgets : List Budget) (editingBudgetIndex : Nat) : List Budget :=
  recomputeTotal (budgets.eraseIdx editingBudgetIndex)

/-- The category registry list of a domain. -/
def registryOf (s : AppState) : Domain → List String
  | .asset => s.assetCategoryList
  | .budget => s.budgetCategoryList

/-- The category references held by the ledger records of a domain. -/
def recordCatsOf (s : AppState) : Domain → List String
  | .asset => s.assets.map (·.category)
  | .budget => s.budgets.map (·.category)

/-- The active category filter of a domain. -/
def selectedOf (s : AppState) : Domain → String
  | .asset => s.selectedAssetCategory
  | .budget => s.selectedBudgetCategory

/-- App.tsx handleAddBudgetCategory: promptResult models the prompt()
return (none on cancel) and newColor the random theme-color pick.  A
truthy, not-yet-registered name is appended to the registry and given a
color; otherwise nothing changes. -/
def handleAddBudgetCategory (s : AppState) (promptResult : Option String) (newColor : String) : AppState :=
  match promptResult with
  | none => s
  | some newCat =>
    if newCat ≠ "" ∧ newCat ∉ s.budgetCategoryList then
      { s with
        budgetCategoryList := s.budgetCategoryList ++ [newCat],
        customCategoryColors := mapSet s.customCategoryColors newCat newColor }
    else s

/-- App.tsx handleAddAssetCategory, symmetric to the budget variant. -/
def handleAddAssetCategory (s : AppState) (promptResult : Option String) (newColor : String) : AppState :=
  match promptResult with
  | none => s
  | some newCat =>
    if newCat ≠ "" ∧ newCat ∉ s.assetCategoryList then
      { s with
        assetCategoryList := s.assetCategoryList ++ [newCat],
        customCategoryColors := mapSet s.customCategoryColors newCat newColor }
    else s

/-- App.tsx handleRenameCategoryAction: promptResult models the prompt()
return.  The guard is exactly the code's (newName truthy and different
from oldName; registry membership of newName is not checked).  On the
taken branch: positional replacement in the registry, cascade over the
domain's ledger, filter update, and color-map migration with the theme
color as fallback. -/
def handleRenameCategoryAction (s : AppState) (oldName : String) (type : Domain)
    (promptResult : Option String) : AppState :=
  match promptResult with
  | none => s
  | some newName =>
    if newName ≠ "" ∧ newName ≠ oldName then
      let s1 := match type with
        | .budget =>
          { s with
            budgetCategoryList := s.budgetCategoryList.map (fun c => if c = oldName then newName else c),
            budgets := s.budgets.map (fun (b : Budget) => if b.category = oldName then { b with category := newName } else b),
            selectedBudgetCategory := if s.selectedBudgetCategory = oldName then newName else s.selectedBudgetCategory }
        | .asset =>
          { s with
            assetCategoryList := s.assetCategoryList.map (fun c => if c = oldName then newName else c),
            assets := s.assets.map (fun (a : Asset) => if a.category = oldName then { a with category := newName } else a),
            selectedAssetCategory := if s.selectedAssetCategory = oldName then newName else s.selectedAssetCategory }
      { s1 with
        customCategoryColors :=
          mapDelete (mapSet s.customCategoryColors newName (jsOr (mapLookup s.customCategoryColors oldName) s.themeColor)) oldName }
    else s

/-- App.tsx handleDeleteCategoryAction (the confirmed path): removes the
name from the domain's registry, reassigns every referencing record of
that domain to the fixed fallback 其他, and resets the domain's active
filter to 全部 when it equalled the deleted name. -/
def handleDeleteCategoryAction (s : AppState) (name : String) (type : Domain) : AppState :=
  match type with
  | .budget =>
    { s with
      budgetCategoryList := s.budgetCategoryList.filter (fun c => !(c == name)),
      budgets := s.budgets.map (fun b => if b.category = name then { b with category := "其他" } else b),
      selectedBudgetCategory := if s.selectedBudgetCategory = name then "全部" else s.selectedBudgetCategory }
  | .asset =>
    { s with
      assetCategoryList := s.assetCategoryList.filter (fun c => !(c == name)),
      assets := s.assets.map (fun a => if a.category = name then { a with category := "其他" } else a),
      selectedAssetCategory := if s.selectedAssetCategory = name then "全部" else s.selectedAssetCategory }

/-- The JSON backup document produced by handleExportData: all persisted
collections plus the theme settings (the export timestamp only names the
file and is irrelevant to the restored state). -/
structure ExportDoc where
  assets : List Asset
  budgets : List Budget
  budgetCategoryList : List String
  assetCategoryList : List String
  themeColor : String
  isAutoTheme : Bool
  customCategoryColors : List (String × String)
  deriving Repr, DecidableEq

/-- App.tsx handleExportData: bundles the persisted state into one
document. -/
def handleExportData (s : AppState) : ExportDoc :=
  { assets := s.assets, budgets := s.budgets,
    budgetCategoryList := s.budgetCategoryList,
    assetCategoryList := s.assetCategoryList,
    themeColor := s.themeColor, isAutoTheme := s.isAutoTheme,
    customCategoryColors := s.customCategoryColors }

/-- App.tsx handleImportData applied to a successfully parsed document
produced by handleExportData: each present-and-truthy field replaces the
corresponding state wholesale.  Arrays and the color-map object from an
export are always truthy; themeColor is skipped when it is the empty
string (JS falsy); the code never reads the document's isAutoTheme. -/
def handleImportData (s : AppState) (data : ExportDoc) : AppState :=
  { s with
    assets := data.assets,
    budgets := data.budgets,
    budgetCategoryList := data.budgetCategoryList,
    assetCategoryList := data.assetCategoryList,
    themeColor := if data.themeColor = "" then s.themeColor else data.themeColor,
    customCategoryColors := data.customCategoryColors }

/-- Boolean form of the budget-total consistency: the first 总计 row (the
one the code's findIndex locates and overwrites) carries exactly the sums
of monthlyAmount and spentThisMonth over the non-total rows; trivially
true when no 总计 row exists. -/
def budgetTotalsOkB (bs : List Budget) : Bool :=
  match findIndex (fun b => b.category == "总计") bs with
  | none => true
  | some i =>
    match bs[i]? with
    | none => true
    | some b =>
      (b.monthlyAmount == sumBy (·.monthlyAmount) (nonTotalRows bs)) &&
      (b.spentThisMonth == sumBy (·.spentThisMonth) (nonTotalRows bs))

/-- Propositional form of the budget-total consistency invariant. -/
def budgetTotalsOk (bs : List Budget) : Prop :=
  budgetTotalsOkB bs = true

instance decBudgetTotalsOk (bs : List Budget) : Decidable (budgetTotalsOk bs) :=
  inferInstanceAs (Decidable (budgetTotalsOkB bs = true))

/-- Every asset of the collection has a non-empty history. -/
def historiesNonEmpty (assets : List Asset) : Prop :=
  ∀ a ∈ assets, a.history ≠ []

instance decHistoriesNonEmpty (assets : List Asset) : Decidable (historiesNonEmpty assets) :=
  inferInstanceAs (Decidable (∀ a ∈ assets, a.history ≠ []))

/-- A sample budget row without optional data. -/
def mkRow (cat : String) (monthly spent : Int) : Budget :=
  { category := cat, subCategory := none, monthlyAmount := monthly,
    spentThisMonth := spent, carryOver := 0, notes := none, color := none,
    transactions := none }

/-- A sample budget ledger whose 总计 row is consistent with its single
non-total row. -/
def exBudgets : List Budget := [mkRow "总计" 5 5, mkRow "A" 5 5]

/-- A sample asset with the given category, value and history. -/
def mkAsset (id cat : String) (value : Int) (hist : List HistoryPoint) : Asset :=
  { id := id, name := id, category := cat, value := value,
    targetValue := none, durationMonths := none, currency := "CNY",
    change24h := none, lastUpdated := "2024-05-20", color := none,
    history := hist, notes := none }

/-- A sample application state with an empty asset ledger, one budget row
referencing 其他 and a registry containing only 其他. -/
def exStateC1 : AppState :=
  { assets := [], budgets := [mkRow "其他" 100 0],
    budgetCategoryList := ["其他"], assetCategoryList := [],
    customCategoryColors := [], selectedAssetCategory := "全部",
    selectedBudgetCategory := "全部", themeColor := "#ef4444",
    isAutoTheme := false }

/-- A sample application state whose budget registry holds 生活 and 投资. -/
def exStateC7 : AppState :=
  { assets := [], budgets := [],
    budgetCategoryList := ["生活", "投资"], assetCategoryList := [],
    customCategoryColors := [("生活", "#f43f5e")],
    selectedAssetCategory := "全部", selectedBudgetCategory := "全部",
    themeColor := "#ef4444", isAutoTheme := false }

/-- A sample application state with a budget row already referencing the
name X while X is not in the registry. -/
def exStateC6 : AppState :=
  { assets := [], budgets := [mkRow "X" 10 0],
    budgetCategoryList := ["生活"], assetCategoryList := [],
    customCategoryColors := [("生活", "#f43f5e")],
    selectedAssetCategory := "全部", selectedBudgetCategory := "全部",
    themeColor := "#ef4444", isAutoTheme := false }

lemma find?_key_map_set (k v : String) (m : List (String × String))
    (h : m.any (fun p => p.1 == k) = true) :
    List.find? (fun p => p.1 == k) (m.map (fun p => if p.1 == k then (k, v) else p)) = some (k, v) := by
  induction m with
  | nil => simp at h
  | cons p rest ih =>
    by_cases hp : p.1 = k
    · rw [List.map_cons, if_pos (show (p.1 == k) = true by simp [hp]),
        List.find?_cons_of_pos (p := fun (q : String × String) => q.1 == k) _ (by simp)]
    · have hrest : rest.any (fun q => q.1 == k) = true := by
        rcases List.any_eq_true.mp h with ⟨q, hq, hqk⟩
        rcases List.mem_cons.mp hq with rfl | hq'
        · exact absurd (by simpa using hqk) hp
        · exact List.any_eq_true.mpr ⟨q, hq', hqk⟩
      rw [List.map_cons, if_neg (show ¬((p.1 == k) = true) by simp [hp]),
        List.find?_cons_of_neg (p := fun (q : String × String) => q.1 == k) _ (by simp [hp])]
      exact ih hrest

lemma mapLookup_mapSet_self (m : List (String × String)) (k v : String) :
    mapLookup (mapSet m k v) k = some v := by
  unfold mapSet
  by_cases h : m.any (fun p => p.1 == k) = true
  · rw [if_pos h]
    unfold mapLookup
    rw [find?_key_map_set k v m h]
    rfl
  · rw [if_neg h]
    unfold mapLookup
    rw [List.find?_append]
    have hnone : List.find? (fun p => p.1 == k) m = none := by
      rw [List.find?_eq_none]
      intro p hp hc
      exact h (List.any_eq_true.mpr ⟨p, hp, hc⟩)
    rw [hnone, List.find?_cons_of_pos (p := fun (q : String × String) => q.1 == k) _ (by simp)]
    rfl

lemma mapLookup_mapDelete_self (m : List (String × String)) (k : String) :
    mapLookup (mapDelete m k) k = none := by
  unfold mapLookup mapDelete
  have h : List.find? (fun p => p.1 == k) (m.filter (fun p => !(p.1 == k))) = none := by
    rw [List.find?_eq_none]
    intro p hp
    have h2 := (List.mem_filter.mp hp).2
    simp only [Bool.not_eq_true'] at h2
    simp [h2]
  simp [h]

lemma mapLookup_mapDelete_ne (m : List (String × String)) (k k' : String) (h : k ≠ k') :
    mapLookup (mapDelete m k') k = mapLookup m k := by
  unfold mapLookup mapDelete
  congr 1
  induction m with
  | nil => rfl
  | cons p rest ih =>
    by_cases hk' : p.1 = k'
    · have h1 : ¬((p.1 == k) = true) := by
        simp only [hk', beq_iff_eq]
        exact fun hc => h hc.symm
      rw [List.filter_cons, if_neg (by simp [hk']), ih,
        List.find?_cons_of_neg (p := fun (q : String × String) => q.1 == k) _ h1]
    · rw [List.filter_cons, if_pos (by simp [hk'])]
      by_cases hk : p.1 = k
      · rw [List.find?_cons_of_pos (p := fun (q : String × String) => q.1 == k) _ (by simp [hk]),
          List.find?_cons_of_pos (p := fun (q : String × String) => q.1 == k) _ (by simp [hk])]
      · rw [List.find?_cons_of_neg (p := fun (q : String × String) => q.1 == k) _ (by simp [hk]),
          List.find?_cons_of_neg (p := fun (q : String × String) => q.1 == k) _ (by simp [hk]), ih]

/-- C8: for every application state, importing the document produced by
export restores the exported state exactly: the round-trip
import(export()) is the identity on the bundled state (assets, budgets,
both category lists, theme color, auto-theme flag, category color map);
the remaining state components are untouched by both operations. -/
theorem C8_import_export_round_trip (s : AppState) :
    handleImportData s (handleExportData s) = s := by
  simp [handleImportData, handleExportData]

/-- C7 counterexample: renaming 生活 to 投资 while 投资 is already present
in the budget registry is not a no-op — the registry changes (to a list
holding 投资 twice), refuting the claim that such a rename fails as a
no-op. -/
theorem C7_rename_counterexample :
    "投资" ∈ exStateC7.budgetCategoryList ∧
    handleRenameCategoryAction exStateC7 "生活" Domain.budget (some "投资") ≠ exStateC7 := by
  decide

/-- C7 (amended): a rename whose prompt was cancelled, returned the empty
string, or returned the old name itself is a no-op on the whole state;
the code does not check whether the new name is already registered. -/
theorem C7_rename_failure_noop (s : AppState) (oldName : String) (d : Domain)
    (pr : Option String) (h : pr = none ∨ pr = some "" ∨ pr = some oldName) :
    handleRenameCategoryAction s oldName d pr = s := by
  rcases h with h | h | h <;> subst h <;> simp [handleRenameCategoryAction]

/-- C7 witness: the amended no-op theorem at a concrete state and input. -/
theorem C7_rename_failure_noop_witness :
    handleRenameCategoryAction exStateC7 "生活" Domain.budget (some "生活") = exStateC7 :=
  C7_rename_failure_noop exStateC7 "生活" Domain.budget (some "生活") (Or.inr (Or.inr rfl))

/-- C10: adding a category in either domain with a cancelled prompt, an
empty name, or a name already present in that domain's registry leaves the
state unchanged; a fresh non-empty name is appended at the end of the
domain's registry and assigned the picked color in the color map. -/
theorem C10_add_category (s : AppState) (newColor : String) :
    (handleAddBudgetCategory s none newColor = s ∧ handleAddAssetCategory s none newColor = s) ∧
    (∀ n, n = "" ∨ n ∈ s.budgetCategoryList → handleAddBudgetCategory s (some n) newColor = s) ∧
    (∀ n, n = "" ∨ n ∈ s.assetCategoryList → handleAddAssetCategory s (some n) newColor = s) ∧
    (∀ n, n ≠ "" → n ∉ s.budgetCategoryList →
      (handleAddBudgetCategory s (some n) newColor).budgetCategoryList = s.budgetCategoryList ++ [n] ∧
      mapLookup (handleAddBudgetCategory s (some n) newColor).customCategoryColors n = some newColor) ∧
    (∀ n, n ≠ "" → n ∉ s.assetCategoryList →
      (handleAddAssetCategory s (some n) newColor).assetCategoryList = s.assetCategoryList ++ [n] ∧
      mapLookup (handleAddAssetCategory s (some n) newColor).customCategoryColors n = some newColor) := by
  refine ⟨⟨rfl, rfl⟩, ?_, ?_, ?_, ?_⟩
  · intro n hn
    rcases hn with hn | hn <;>
      simp [handleAddBudgetCategory, hn]
  · intro n hn
    rcases hn with hn | hn <;>
      simp [handleAddAssetCategory, hn]
  · intro n hne hnd
    rw [handleAddBudgetCategory, if_pos ⟨hne, hnd⟩]
    exact ⟨rfl, mapLookup_mapSet_self _ n newColor⟩
  · intro n hne hnd
    rw [handleAddAssetCategory, if_pos ⟨hne, hnd⟩]
    exact ⟨rfl, mapLookup_mapSet_self _ n newColor⟩

/-- C10 witness: the theorem applied at a concrete state, with one
rejected duplicate name and one accepted fresh name per domain. -/
theorem C10_add_category_witness :
    (handleAddBudgetCategory exStateC7 (some "生活") "#3b82f6" = exStateC7) ∧
    (handleAddBudgetCategory exStateC7 (some "旅行") "#3b82f6").budgetCategoryList = ["生活", "投资", "旅行"] ∧
    mapLookup (handleAddBudgetCategory exStateC7 (some "旅行") "#3b82f6").customCategoryColors "旅行" = some "#3b82f6" ∧
    (handleAddAssetCategory exStateC7 (some "基金") "#3b82f6").assetCategoryList = ["基金"] := by
  refine ⟨(C10_add_category exStateC7 "#3b82f6").2.1 "生活" (Or.inr (by decide)), ?_, ?_, ?_⟩
  · have h := ((C10_add_category exStateC7 "#3b82f6").2.2.2.1 "旅行" (by decide) (by decide)).1
    rw [h]; rfl
  · exact ((C10_add_category exStateC7 "#3b82f6").2.2.2.1 "旅行" (by decide) (by decide)).2
  · have h := ((C10_add_category exStateC7 "#3b82f6").2.2.2.2 "基金" (by decide) (by decide)).1
    rw [h]; rfl

/-- A sample asset with a one-point history, used to exercise the update
and deletion handlers. -/
def exAssetC5 : Asset := mkAsset "1" "银行储蓄" 1000 [{ date := "2024-05-01", value := 1000 }]

/-- C5: handleUpdateAsset leaves the collection unchanged when no asset
matches the id; it never changes the number of assets; on the matching
asset it appends exactly one history point dated today carrying the new
value when the update holds a value and leaves history untouched
otherwise, refreshing lastUpdated to the current date in both cases; and
it leaves non-matching assets exactly as they were. -/
theorem C5_update_asset (todayISO todayLocale : String) (assets : List Asset)
    (id : String) (u : AssetUpdates) :
    ((∀ a ∈ assets, a.id ≠ id) → handleUpdateAsset todayISO todayLocale assets id u = assets) ∧
    (handleUpdateAsset todayISO todayLocale assets id u).length = assets.length ∧
    (∀ (i : Nat) (a : Asset), assets[i]? = some a → a.id = id →
      ∃ b : Asset, (handleUpdateAsset todayISO todayLocale assets id u)[i]? = some b ∧
        b.lastUpdated = todayLocale ∧
        (∀ v : Int, u.value = some v → b.history = a.history ++ [{ date := todayISO, value := v }]) ∧
        (u.value = none → b.history = a.history)) ∧
    (∀ (i : Nat) (a : Asset), assets[i]? = some a → a.id ≠ id →
      (handleUpdateAsset todayISO todayLocale assets id u)[i]? = some a) := by
  refine ⟨?_, ?_, ?_, ?_⟩
  · intro h
    unfold handleUpdateAsset
    calc List.map _ assets = List.map (fun a => a) assets :=
        List.map_congr_left (g := fun a => a) (fun a ha => by simp [h a ha])
      _ = assets := by simp
  · exact List.length_map _ _
  · intro i a hi hid
    unfold handleUpdateAsset
    rw [List.getElem?_map, hi]
    simp only [Option.map_some', hid, if_pos]
    refine ⟨_, rfl, rfl, ?_, ?_⟩
    · intro v hv
      simp [hv]
    · intro hv
      simp [hv]
  · intro i a hi hid
    unfold handleUpdateAsset
    rw [List.getElem?_map, hi]
    simp [hid]

/-- C5 witness: the theorem at a concrete one-asset collection — an
unknown id changes nothing, and a value update to 1500 appends exactly the
history point dated today with value 1500 and refreshes lastUpdated. -/
theorem C5_update_asset_witness :
    handleUpdateAsset "2024-05-21" "2024/5/21" [exAssetC5] "9" { value := some 1500 } = [exAssetC5] ∧
    (handleUpdateAsset "2024-05-21" "2024/5/21" [exAssetC5] "1" { value := some 1500 })[0]?.map (·.history) =
      some (exAssetC5.history ++ [{ date := "2024-05-21", value := 1500 }]) ∧
    (handleUpdateAsset "2024-05-21" "2024/5/21" [exAssetC5] "1" { value := some 1500 })[0]?.map (·.lastUpdated) =
      some "2024/5/21" := by
  refine ⟨(C5_update_asset "2024-05-21" "2024/5/21" [exAssetC5] "9" { value := some 1500 }).1 (by decide), ?_⟩
  obtain ⟨b, hb, hl, hv, _⟩ :=
    (C5_update_asset "2024-05-21" "2024/5/21" [exAssetC5] "1" { value := some 1500 }).2.2.1 0 exAssetC5 rfl rfl
  rw [hb]
  simp [hl, hv 1500 rfl]

lemma findIndex_some {p : Budget → Bool} :
    ∀ {l : List Budget} {i : Nat}, findIndex p l = some i →
      ∃ b, l[i]? = some b ∧ p b = true := by
  intro l
  induction l with
  | nil => intro i h; simp [findIndex] at h
  | cons x xs ih =>
    intro i h
    unfold findIndex at h
    by_cases hx : p x = true
    · rw [if_pos hx] at h
      cases h
      exact ⟨x, by simp, hx⟩
    · rw [if_neg hx] at h
      cases hj : findIndex p xs with
      | none => rw [hj] at h; simp at h
      | some j =>
        rw [hj] at h
        simp only [Option.map_some'] at h
        obtain ⟨b, hb, hpb⟩ := ih hj
        cases h
        exact ⟨b, by simpa using hb, hpb⟩

lemma findIndex_set_self {p : Budget → Bool} {a : Budget} :
    ∀ {l : List Budget} {i : Nat}, findIndex p l = some i → p a = true →
      findIndex p (l.set i a) = some i := by
  intro l
  induction l with
  | nil => intro i h _; simp [findIndex] at h
  | cons x xs ih =>
    intro i h hpa
    unfold findIndex at h
    by_cases hx : p x = true
    · rw [if_pos hx] at h
      cases h
      simp [findIndex, hpa]
    · rw [if_neg hx] at h
      cases hj : findIndex p xs with
      | none => rw [hj] at h; simp at h
      | some j =>
        rw [hj] at h
        simp only [Option.map_some'] at h
        cases h
        rw [List.set_cons_succ]
        unfold findIndex
        rw [if_neg hx, ih hj hpa]
        rfl

lemma findIndex_eq_none {p : Budget → Bool} {l : List Budget}
    (h : ∀ b ∈ l, p b = false) : findIndex p l = none := by
  induction l with
  | nil => rfl
  | cons x xs ih =>
    unfold findIndex
    rw [if_neg (by simp [h x (by simp)]), ih (fun b hb => h b (by simp [hb]))]
    rfl

lemma filter_set_not {q : Budget → Bool} :
    ∀ {l : List Budget} {i : Nat} {a b : Budget}, l[i]? = some a →
      q a = false → q b = false → (l.set i b).filter q = l.filter q := by
  intro l
  induction l with
  | nil => intro i a b h _ _; simp at h
  | cons x xs ih =>
    intro i a b h hqa hqb
    cases i with
    | zero =>
      simp only [List.getElem?_cons_zero, Option.some_inj] at h
      subst h
      rw [List.set_cons_zero, List.filter_cons, List.filter_cons,
        if_neg (by simp [hqb]), if_neg (by simp [hqa])]
    | succ j =>
      simp only [List.getElem?_cons_succ] at h
      rw [List.set_cons_succ, List.filter_cons, List.filter_cons, ih h hqa hqb]

lemma recomputeTotal_length (bs : List Budget) :
    (recomputeTotal bs).length = bs.length := by
  unfold recomputeTotal
  cases h : findIndex (fun b => b.category == "总计") bs with
  | none => rfl
  | some i =>
    cases ht : bs[i]? with
    | none => simp [ht]
    | some t => simp [ht, List.length_set]

lemma recomputeTotal_ok (bs : List Budget) : budgetTotalsOk (recomputeTotal bs) := by
  unfold budgetTotalsOk budgetTotalsOkB recomputeTotal
  cases h : findIndex (fun b => b.category == "总计") bs with
  | none => simp only [h]
  | some i =>
    obtain ⟨t, ht, hpt⟩ := findIndex_some h
    simp only [h, ht]
    have hlen : i < bs.length := by
      by_contra hc
      rw [List.getElem?_eq_none (by omega)] at ht
      exact Option.noConfusion ht
    have hft : findIndex (fun b => b.category == "总计")
        (bs.set i { t with
          monthlyAmount := sumBy (·.monthlyAmount) (nonTotalRows bs),
          spentThisMonth := sumBy (·.spentThisMonth) (nonTotalRows bs) }) = some i :=
      findIndex_set_self h (by simpa using hpt)
    have hget : (bs.set i { t with
        monthlyAmount := sumBy (·.monthlyAmount) (nonTotalRows bs),
        spentThisMonth := sumBy (·.spentThisMonth) (nonTotalRows bs) })[i]? = some _ :=
      List.getElem?_set_self (by simpa using hlen)
    have hfilter : nonTotalRows (bs.set i { t with
        monthlyAmount := sumBy (·.monthlyAmount) (nonTotalRows bs),
        spentThisMonth := sumBy (·.spentThisMonth) (nonTotalRows bs) }) = nonTotalRows bs := by
      unfold nonTotalRows
      exact filter_set_not ht (by simp [hpt]) (by simp [hpt])
    simp only [hft, hget, hfilter]
    simp

lemma recomputeTotal_noop {bs : List Budget}
    (h : ∀ b ∈ bs, b.category ≠ "总计") : recomputeTotal bs = bs := by
  unfold recomputeTotal
  rw [findIndex_eq_none (fun b hb => by simp [h b hb])]

lemma handleUpdateBudget_eq_of_some {budgets : List Budget} {index : Nat}
    {u : BudgetUpdates} {row : Budget} (hrow : budgets[index]? = some row) :
    handleUpdateBudget budgets index u =
      if (!((applyBudgetUpdates row u).category == "总计")) = true
      then recomputeTotal (budgets.set index (applyBudgetUpdates row u))
      else budgets.set index (applyBudgetUpdates row u) := by
  unfold handleUpdateBudget
  rw [hrow]

/-- C2 counterexample: exBudgets is total-consistent and its row 1 is a
non-total row, yet updating that row via handleUpdateBudget (setting its
category to 总计) leaves the ledger total-inconsistent — the code decides
whether to recompute from the category after the merge, so a mutation of a
non-total row can skip the recomputation.  This refutes the claim that the
Total row carries the sums after any mutation to a non-total row. -/
theorem C2_total_counterexample :
    budgetTotalsOk exBudgets ∧
    exBudgets[1]?.map (·.category) = some "A" ∧
    ¬ budgetTotalsOk (handleUpdateBudget exBudgets 1 { category := some "总计" }) := by
  decide

/-- C2 (amended): after a handleUpdateBudget call whose merged row is
still non-total, and after any handleDeleteBudget call, the first 总计
row carries exactly the sums of monthlyAmount and spentThisMonth over the
non-total rows; no row is ever added (the update keeps the length, so when
no Total row exists nothing is synthesized and the recomputation is the
identity). -/
theorem C2_total_recompute (budgets : List Budget) (index j : Nat) (u : BudgetUpdates) :
    (∀ row : Budget, budgets[index]? = some row →
      (applyBudgetUpdates row u).category ≠ "总计" →
        budgetTotalsOk (handleUpdateBudget budgets index u) ∧
        (handleUpdateBudget budgets index u).length = budgets.length ∧
        ((∀ b ∈ budgets.set index (applyBudgetUpdates row u), b.category ≠ "总计") →
          handleUpdateBudget budgets index u = budgets.set index (applyBudgetUpdates row u))) ∧
    (budgetTotalsOk (handleDeleteBudget budgets j) ∧
      ((∀ b ∈ budgets.eraseIdx j, b.category ≠ "总计") →
        handleDeleteBudget budgets j = budgets.eraseIdx j)) := by
  constructor
  · intro row hrow hcat
    rw [handleUpdateBudget_eq_of_some hrow, if_pos (by simp [hcat])]
    exact ⟨recomputeTotal_ok _, by rw [recomputeTotal_length, List.length_set],
      fun hall => recomputeTotal_noop hall⟩
  · exact ⟨recomputeTotal_ok _, fun hall => recomputeTotal_noop hall⟩

/-- C2 witness: the amended theorem at the concrete ledger exBudgets —
raising row 1's spending to 9 yields a Total row holding (5, 9), and
deleting row 1 yields a Total row holding (0, 0). -/
theorem C2_total_recompute_witness :
    budgetTotalsOk (handleUpdateBudget exBudgets 1 { spentThisMonth := some 9 }) ∧
    handleUpdateBudget exBudgets 1 { spentThisMonth := some 9 } = [mkRow "总计" 5 9, mkRow "A" 5 9] ∧
    budgetTotalsOk (handleDeleteBudget exBudgets 1) ∧
    handleDeleteBudget exBudgets 1 = [mkRow "总计" 0 0] := by
  have h := C2_total_recompute exBudgets 1 1 { spentThisMonth := some 9 }
  refine ⟨(h.1 (mkRow "A" 5 5) (by decide) (by decide)).1, by decide, h.2.1, by decide⟩

/-- C3 counterexample: exBudgets is total-consistent, yet saving a new
total budget limit of 100 through handleSaveTotalLimit writes 100 into the
Total row's monthlyAmount directly (the non-total sums are still 5),
leaving the ledger total-inconsistent — the user can set the Total row's
amount to a value differing from the sums. -/
theorem C3_total_limit_counterexample :
    budgetTotalsOk exBudgets ∧
    ¬ budgetTotalsOk (handleSaveTotalLimit exBudgets (some 100)) := by
  decide

/-- C3 (amended): handleSaveTotalLimit with a parsed numeric value
overwrites the first 总计 row's monthlyAmount with exactly the entered
value, with no recomputation (the merged row is the Total row, so
handleUpdateBudget skips the total recomputation), and is the identity
when the entered text does not parse; hence the sum invariant holds only
after non-total mutations, not after total-limit edits. -/
theorem C3_total_limit_direct_write (budgets : List Budget) (val : Int) (i : Nat) (t : Budget)
    (hidx : findIndex (fun b => b.category == "总计") budgets = some i)
    (ht : budgets[i]? = some t) :
    handleSaveTotalLimit budgets (some val) = budgets.set i { t with monthlyAmount := val } ∧
    handleSaveTotalLimit budgets none = budgets := by
  constructor
  · obtain ⟨t', ht', hp⟩ := findIndex_some hidx
    rw [ht] at ht'
    cases ht'
    unfold handleSaveTotalLimit
    rw [hidx]
    show handleUpdateBudget budgets i { monthlyAmount := some val } = _
    have happ : applyBudgetUpdates t { monthlyAmount := some val } = { t with monthlyAmount := val } := by
      simp [applyBudgetUpdates]
    rw [handleUpdateBudget_eq_of_some ht, happ, if_neg (by simp [hp])]
  · rfl

/-- C3 witness: the amended theorem at the concrete ledger exBudgets —
saving 100 rewrites only the Total row's monthlyAmount. -/
theorem C3_total_limit_direct_write_witness :
    handleSaveTotalLimit exBudgets (some 100) = exBudgets.set 0 { mkRow "总计" 5 5 with monthlyAmount := 100 } ∧
    handleSaveTotalLimit exBudgets none = exBudgets :=
  C3_total_limit_direct_write exBudgets 100 0 (mkRow "总计" 5 5) (by decide) (by decide)

/-- The two assets of the spec's net-worth scenario: a liability valued
500 and a cash asset valued 2000, with a snapshot on the same date. -/
def exScenarioAssets : List Asset :=
  [mkAsset "L" "负债" 500 [{ date := "2024-05-20", value := 500 }],
    mkAsset "C" "现金" 2000 [{ date := "2024-05-20", value := 2000 }]]

/-- A sample application state matching the spec scenario: two budget
rows referencing 生活, the default budget registry, a color entry for
生活, and the active budget filter set to 生活. -/
def exStateScenario : AppState :=
  { assets := [], budgets := [mkRow "生活" 100 10, mkRow "生活" 50 5],
    budgetCategoryList := ["生活", "投资", "其他"], assetCategoryList := [],
    customCategoryColors := [("生活", "#f43f5e")], selectedAssetCategory := "全部",
    selectedBudgetCategory := "生活", themeColor := "#ef4444",
    isAutoTheme := false }

/-- C1 counterexample: deleting the category 其他 itself from exStateC1
(whose single budget row references 其他 and whose registry is exactly
[其他]) leaves that row referencing 其他 while 其他 is gone from the
registry — after the deletion a ledger record references a category name
absent from the registry, refuting the unconditional no-dangling claim. -/
theorem C1_delete_counterexample :
    ¬ (∀ c ∈ recordCatsOf (handleDeleteCategoryAction exStateC1 "其他" Domain.budget) Domain.budget,
        c ∈ registryOf (handleDeleteCategoryAction exStateC1 "其他" Domain.budget) Domain.budget) := by
  decide

/-- C1 (amended): after delete(name, domain), every record that referenced
name is reassigned to 其他, name is removed from the domain's registry
(all occurrences), the domain's active filter is reset to 全部 exactly
when it equalled name, and — provided name is not 其他 itself, 其他 is
registered, and every record referenced a registered name beforehand — no
record of the domain references a name absent from the registry. -/
theorem C1_delete_category (s : AppState) (name : String) (d : Domain) :
    recordCatsOf (handleDeleteCategoryAction s name d) d =
      (recordCatsOf s d).map (fun c => if c = name then "其他" else c) ∧
    name ∉ registryOf (handleDeleteCategoryAction s name d) d ∧
    registryOf (handleDeleteCategoryAction s name d) d =
      (registryOf s d).filter (fun c => !(c == name)) ∧
    selectedOf (handleDeleteCategoryAction s name d) d =
      (if selectedOf s d = name then "全部" else selectedOf s d) ∧
    (name ≠ "其他" → "其他" ∈ registryOf s d →
      (∀ c ∈ recordCatsOf s d, c ∈ registryOf s d) →
      ∀ c ∈ recordCatsOf (handleDeleteCategoryAction s name d) d,
        c ∈ registryOf (handleDeleteCategoryAction s name d) d) := by
  have hcats : recordCatsOf (handleDeleteCategoryAction s name d) d =
      (recordCatsOf s d).map (fun c => if c = name then "其他" else c) := by
    cases d <;>
      · simp only [handleDeleteCategoryAction, recordCatsOf, List.map_map]
        refine List.map_congr_left (fun a _ => ?_)
        by_cases h : a.category = name <;> simp [h]
  have hreg : registryOf (handleDeleteCategoryAction s name d) d =
      (registryOf s d).filter (fun c => !(c == name)) := by
    cases d <;> rfl
  refine ⟨hcats, ?_, hreg, ?_, ?_⟩
  · rw [hreg]
    simp [List.mem_filter]
  · cases d <;> rfl
  · intro hno hother hall c hc
    rw [hcats] at hc
    obtain ⟨c0, hc0, hgc⟩ := List.mem_map.mp hc
    rw [hreg, List.mem_filter]
    by_cases h0 : c0 = name
    · rw [if_pos h0] at hgc
      subst hgc
      refine ⟨hother, ?_⟩
      simp only [Bool.not_eq_true', beq_eq_false_iff_ne]
      exact fun hc2 => hno hc2.symm
    · rw [if_neg h0] at hgc
      subst hgc
      exact ⟨hall c0 hc0, by simp [h0]⟩

/-- C1 witness: the amended theorem at the scenario state — deleting the
budget category 生活 reassigns both referencing rows to 其他, removes
生活 from the registry, resets the active filter to 全部, and leaves no
dangling reference. -/
theorem C1_delete_category_witness :
    recordCatsOf (handleDeleteCategoryAction exStateScenario "生活" Domain.budget) Domain.budget = ["其他", "其他"] ∧
    "生活" ∉ registryOf (handleDeleteCategoryAction exStateScenario "生活" Domain.budget) Domain.budget ∧
    registryOf (handleDeleteCategoryAction exStateScenario "生活" Domain.budget) Domain.budget = ["投资", "其他"] ∧
    selectedOf (handleDeleteCategoryAction exStateScenario "生活" Domain.budget) Domain.budget = "全部" ∧
    (∀ c ∈ recordCatsOf (handleDeleteCategoryAction exStateScenario "生活" Domain.budget) Domain.budget,
      c ∈ registryOf (handleDeleteCategoryAction exStateScenario "生活" Domain.budget) Domain.budget) := by
  have h := C1_delete_category exStateScenario "生活" Domain.budget
  refine ⟨by rw [h.1]; rfl, h.2.1, by rw [h.2.2.1]; rfl, by rw [h.2.2.2.1]; rfl,
    h.2.2.2.2 (by decide) (by decide) (by decide)⟩

/-- C9 counterexample: the one-asset collection around exAssetC5 has every
history non-empty, yet deleting history point 0 of asset 1 (its only
point) leaves that asset with an empty history — non-emptiness is not
preserved by history-point deletion. -/
theorem C9_history_counterexample :
    historiesNonEmpty [exAssetC5] ∧
    ¬ historiesNonEmpty (handleDeleteHistoryPoint [exAssetC5] "1" 0) := by
  decide

/-- C9 (amended): every asset history is non-empty after creation (the
added asset carries a single-point history, and existing non-empty
histories are kept), and asset updates preserve non-emptiness; the
invariant is not maintained by history-point deletion, which can empty a
history. -/
theorem C9_history_nonempty (assets : List Asset) (newId tI tL nm cat : String)
    (value : Int) (tv dm : Option Int) (nt : Option String)
    (h : historiesNonEmpty assets) :
    historiesNonEmpty (addAsset assets newId tI tL nm cat value tv dm nt) ∧
    (∀ (todayISO todayLocale aid : String) (u : AssetUpdates),
      historiesNonEmpty (handleUpdateAsset todayISO todayLocale assets aid u)) := by
  constructor
  · intro a ha
    rcases List.mem_append.mp ha with ha | ha
    · exact h a ha
    · simp only [List.mem_singleton] at ha
      subst ha
      simp
  · intro todayISO todayLocale aid u a ha
    obtain ⟨a0, ha0, rfl⟩ := List.mem_map.mp ha
    by_cases hid : a0.id = aid
    · rw [if_pos hid]
      cases hv : u.value <;> simp [hv, h a0 ha0]
    · rw [if_neg hid]
      exact h a0 ha0

/-- C9 witness: the amended theorem at a concrete collection — adding an
asset and updating one keep all histories non-empty. -/
theorem C9_history_nonempty_witness :
    historiesNonEmpty (addAsset [exAssetC5] "2" "2024-05-21" "2024/5/21" "基金A" "基金" 800 none none none) ∧
    historiesNonEmpty (handleUpdateAsset "2024-05-21" "2024/5/21" [exAssetC5] "1" { value := some 1500 }) := by
  have h := C9_history_nonempty [exAssetC5] "2" "2024-05-21" "2024/5/21" "基金A" "基金" 800 none none none (by decide)
  exact ⟨h.1, h.2 "2024-05-21" "2024/5/21" "1" { value := some 1500 }⟩

lemma mem_of_getElem_eq_some {l : List String} {i : Nat} {a : String}
    (h : l[i]? = some a) : a ∈ l := by
  obtain ⟨hl, rfl⟩ := List.getElem?_eq_some.mp h
  exact List.getElem_mem hl

/-- C6 counterexample: in exStateC6 a budget row already references X
(which is not registered); after the successful rename of 生活 to X, the
row referencing X is that pre-existing row, not a row that referenced
生活 before — the set of records referencing the new name after the
rename differs from the set that referenced the old name before it. -/
theorem C6_rename_counterexample :
    ¬ (∀ i : Nat,
      ((recordCatsOf (handleRenameCategoryAction exStateC6 "生活" Domain.budget (some "X")) Domain.budget)[i]? = some "X") ↔
        ((recordCatsOf exStateC6 Domain.budget)[i]? = some "生活")) := by
  intro h
  have h0 := h 0
  revert h0
  decide

/-- C6 (amended): for a successful rename (non-empty newName different
from oldName) in a state where no ledger record of the domain references
newName beforehand: record i references newName after the rename exactly
when it referenced oldName before (the cascade is the pointwise positional
replacement), the registry replaces oldName by newName at its original
ordinal position, a non-empty color-map entry of oldName is migrated to
newName (and removed from oldName), and the active filter becomes newName
exactly when it equalled oldName. -/
theorem C6_rename_cascade (s : AppState) (oldName newName : String) (d : Domain)
    (hne : newName ≠ "") (hdiff : newName ≠ oldName)
    (hfresh : newName ∉ recordCatsOf s d) :
    recordCatsOf (handleRenameCategoryAction s oldName d (some newName)) d =
      (recordCatsOf s d).map (fun c => if c = oldName then newName else c) ∧
    (∀ i : Nat,
      ((recordCatsOf (handleRenameCategoryAction s oldName d (some newName)) d)[i]? = some newName) ↔
        ((recordCatsOf s d)[i]? = some oldName)) ∧
    registryOf (handleRenameCategoryAction s oldName d (some newName)) d =
      (registryOf s d).map (fun c => if c = oldName then newName else c) ∧
    (∀ c : String, mapLookup s.customCategoryColors oldName = some c → c ≠ "" →
      mapLookup (handleRenameCategoryAction s oldName d (some newName)).customCategoryColors newName = some c ∧
      mapLookup (handleRenameCategoryAction s oldName d (some newName)).customCategoryColors oldName = none) ∧
    selectedOf (handleRenameCategoryAction s oldName d (some newName)) d =
      (if selectedOf s d = oldName then newName else selectedOf s d) := by
  have hguard : newName ≠ "" ∧ newName ≠ oldName := ⟨hne, hdiff⟩
  have hcats : recordCatsOf (handleRenameCategoryAction s oldName d (some newName)) d =
      (recordCatsOf s d).map (fun c => if c = oldName then newName else c) := by
    cases d <;>
      · simp only [handleRenameCategoryAction, if_pos hguard, recordCatsOf, List.map_map]
        refine List.map_congr_left (fun a _ => ?_)
        by_cases h : a.category = oldName <;> simp [h]
  refine ⟨hcats, ?_, ?_, ?_, ?_⟩
  · intro i
    rw [hcats, List.getElem?_map]
    cases h0 : (recordCatsOf s d)[i]? with
    | none => simp
    | some c =>
      simp only [Option.map_some', Option.some_inj]
      constructor
      · intro hc
        by_cases hco : c = oldName
        · rw [hco]
        · rw [if_neg hco] at hc
          exact absurd (hc ▸ mem_of_getElem_eq_some h0) hfresh
      · intro hc
        rw [hc, if_pos rfl]
  · cases d <;> simp [handleRenameCategoryAction, if_pos hguard, registryOf]
  · intro c hc hcne
    have hcolors : (handleRenameCategoryAction s oldName d (some newName)).customCategoryColors =
        mapDelete (mapSet s.customCategoryColors newName
          (jsOr (mapLookup s.customCategoryColors oldName) s.themeColor)) oldName := by
      cases d <;> simp [handleRenameCategoryAction, if_pos hguard]
    have hj : jsOr (mapLookup s.customCategoryColors oldName) s.themeColor = c := by
      rw [hc]
      simp [jsOr, hcne]
    rw [hcolors, hj]
    exact ⟨by rw [mapLookup_mapDelete_ne _ newName oldName hdiff, mapLookup_mapSet_self],
      mapLookup_mapDelete_self _ oldName⟩
  · cases d <;> simp [handleRenameCategoryAction, if_pos hguard, selectedOf]

/-- C6 witness: the amended theorem at the scenario state — renaming the
budget category 生活 to 日常 carries both referencing rows over, replaces
the registry entry in place, migrates the color, and retargets the active
filter. -/
theorem C6_rename_cascade_witness :
    recordCatsOf (handleRenameCategoryAction exStateScenario "生活" Domain.budget (some "日常")) Domain.budget = ["日常", "日常"] ∧
    ((recordCatsOf (handleRenameCategoryAction exStateScenario "生活" Domain.budget (some "日常")) Domain.budget)[0]? = some "日常") ∧
    registryOf (handleRenameCategoryAction exStateScenario "生活" Domain.budget (some "日常")) Domain.budget = ["日常", "投资", "其他"] ∧
    mapLookup (handleRenameCategoryAction exStateScenario "生活" Domain.budget (some "日常")).customCategoryColors "日常" = some "#f43f5e" ∧
    mapLookup (handleRenameCategoryAction exStateScenario "生活" Domain.budget (some "日常")).customCategoryColors "生活" = none ∧
    selectedOf (handleRenameCategoryAction exStateScenario "生活" Domain.budget (some "日常")) Domain.budget = "日常" := by
  have h := C6_rename_cascade exStateScenario "生活" "日常" Domain.budget (by decide) (by decide) (by decide)
  have hcol := h.2.2.2.1 "#f43f5e" (by decide) (by decide)
  refine ⟨by rw [h.1]; rfl, (h.2.1 0).mpr (by decide), by rw [h.2.2.1]; rfl,
    hcol.1, hcol.2, by rw [h.2.2.2.2]; rfl⟩

lemma mem_insertUnique {l : List String} {x y : String} :
    x ∈ insertUnique l y ↔ x ∈ l ∨ x = y := by
  unfold insertUnique
  by_cases h : y ∈ l
  · rw [if_pos h]
    constructor
    · exact Or.inl
    · rintro (hx | rfl)
      · exact hx
      · exact h
  · rw [if_neg h]
    simp

lemma nodup_insertUnique {l : List String} {y : String} (h : l.Nodup) :
    (insertUnique l y).Nodup := by
  unfold insertUnique
  by_cases hy : y ∈ l
  · rwa [if_pos hy]
  · rw [if_neg hy]
    simpa [List.nodup_append] using ⟨h, fun hc => hy hc⟩

lemma mem_foldl_insert_hist (x : String) :
    ∀ (hist : List HistoryPoint) (acc : List String),
      x ∈ hist.foldl (fun acc2 h => insertUnique acc2 h.date) acc ↔
        x ∈ acc ∨ ∃ h ∈ hist, h.date = x := by
  intro hist
  induction hist with
  | nil => simp
  | cons p rest ih =>
    intro acc
    rw [List.foldl_cons, ih, mem_insertUnique]
    constructor
    · rintro ((hx | rfl) | ⟨h, hh, rfl⟩)
      · exact Or.inl hx
      · exact Or.inr ⟨p, by simp⟩
      · exact Or.inr ⟨h, by simp [hh]⟩
    · rintro (hx | ⟨h, hh, rfl⟩)
      · exact Or.inl (Or.inl hx)
      · rcases List.mem_cons.mp hh with rfl | hh'
        · exact Or.inl (Or.inr rfl)
        · exact Or.inr ⟨h, hh', rfl⟩

lemma nodup_foldl_insert_hist :
    ∀ (hist : List HistoryPoint) (acc : List String), acc.Nodup →
      (hist.foldl (fun acc2 h => insertUnique acc2 h.date) acc).Nodup := by
  intro hist
  induction hist with
  | nil => exact fun acc h => h
  | cons p rest ih =>
    intro acc hacc
    rw [List.foldl_cons]
    exact ih _ (nodup_insertUnique hacc)

lemma mem_collectDates (x : String) (assets : List Asset) :
    x ∈ collectDates assets ↔ ∃ a ∈ assets, ∃ h ∈ a.history, h.date = x := by
  unfold collectDates
  suffices hgen : ∀ (l : List Asset) (acc : List String),
      x ∈ l.foldl (fun acc a => a.history.foldl (fun acc2 h => insertUnique acc2 h.date) acc) acc ↔
        x ∈ acc ∨ ∃ a ∈ l, ∃ h ∈ a.history, h.date = x by
    rw [hgen assets []]
    simp
  intro l
  induction l with
  | nil => simp
  | cons a rest ih =>
    intro acc
    rw [List.foldl_cons, ih, mem_foldl_insert_hist]
    constructor
    · rintro ((hx | ⟨h, hh, rfl⟩) | ⟨b, hb, h, hh, rfl⟩)
      · exact Or.inl hx
      · exact Or.inr ⟨a, by simp, h, hh, rfl⟩
      · exact Or.inr ⟨b, by simp [hb], h, hh, rfl⟩
    · rintro (hx | ⟨b, hb, h, hh, rfl⟩)
      · exact Or.inl (Or.inl hx)
      · rcases List.mem_cons.mp hb with rfl | hb'
        · exact Or.inl (Or.inr ⟨h, hh, rfl⟩)
        · exact Or.inr ⟨b, hb', h, hh, rfl⟩

lemma nodup_collectDates (assets : List Asset) : (collectDates assets).Nodup := by
  unfold collectDates
  suffices hgen : ∀ (l : List Asset) (acc : List String), acc.Nodup →
      (l.foldl (fun acc a => a.history.foldl (fun acc2 h => insertUnique acc2 h.date) acc) acc).Nodup by
    exact hgen assets [] (by simp)
  intro l
  induction l with
  | nil => exact fun acc h => h
  | cons a rest ih =>
    intro acc hacc
    rw [List.foldl_cons]
    exact ih _ (nodup_foldl_insert_hist _ _ hacc)

lemma netTotal_eq_sum (cy : Int) (assets : List Asset) (date : String) :
    netTotal cy assets date =
      (assets.map (fun a =>
        if a.category = "负债" then -(assetValueAt cy a date) else assetValueAt cy a date)).sum := by
  unfold netTotal
  suffices hgen : ∀ (l : List Asset) (init : Int),
      l.foldl (fun total asset =>
        let val := assetValueAt cy asset date
        if asset.category = "负债" then total - val else total + val) init =
      init + (l.map (fun a =>
        if a.category = "负债" then -(assetValueAt cy a date) else assetValueAt cy a date)).sum by
    rw [hgen assets 0]
    omega
  intro l
  induction l with
  | nil => simp
  | cons a rest ih =>
    intro init
    rw [List.foldl_cons, List.map_cons, List.sum_cons, ih]
    by_cases h : a.category = "负债" <;> simp [h] <;> ring

lemma carryScan_eq_filter_getLast (cy tX : Int) (l : List HistoryPoint)
    (hsort : l.Pairwise (fun h1 h2 => parseDate cy h1.date < parseDate cy h2.date))
    (hpos : ∀ h ∈ l, -1 < parseDate cy h.date) :
    carryScan cy tX l =
      (match (l.filter (fun h => parseDate cy h.date ≤ tX)).getLast? with
        | some h => (parseDate cy h.date, some h)
        | none => ((-1 : Int), (none : Option HistoryPoint))) := by
  induction l using List.reverseRecOn with
  | nil => rfl
  | append_singleton l2 h ih =>
    rw [List.pairwise_append] at hsort
    obtain ⟨hs1, _, hlt⟩ := hsort
    have hpos2 : ∀ x ∈ l2, -1 < parseDate cy x.date := fun x hx => hpos x (by simp [hx])
    have ihv := ih hs1 hpos2
    unfold carryScan at ihv ⊢
    rw [List.foldl_append, ihv]
    by_cases ht : parseDate cy h.date ≤ tX
    · have hfil : (l2 ++ [h]).filter (fun x => parseDate cy x.date ≤ tX) =
          l2.filter (fun x => parseDate cy x.date ≤ tX) ++ [h] := by
        rw [List.filter_append]
        congr 1
        simp [List.filter, ht]
      rw [hfil, List.getLast?_concat]
      cases hg : (l2.filter (fun x => parseDate cy x.date ≤ tX)).getLast? with
      | none =>
        have hh : -1 < parseDate cy h.date := hpos h (by simp)
        simp only [hg, List.foldl]
        rw [if_pos (by simp only [Bool.and_eq_true, decide_eq_true_eq]; exact ⟨ht, hh⟩)]
      | some h0 =>
        have h0mem : h0 ∈ l2 := List.mem_of_mem_filter (List.mem_of_getLast?_eq_some hg)
        have h0lt : parseDate cy h0.date < parseDate cy h.date := hlt h0 h0mem h (by simp)
        simp only [hg, List.foldl]
        rw [if_pos (by simp only [Bool.and_eq_true, decide_eq_true_eq]; exact ⟨ht, h0lt⟩)]
    · have hfil : (l2 ++ [h]).filter (fun x => parseDate cy x.date ≤ tX) =
          l2.filter (fun x => parseDate cy x.date ≤ tX) := by
        rw [List.filter_append]
        simp [List.filter, ht]
      rw [hfil]
      cases hg : (l2.filter (fun x => parseDate cy x.date ≤ tX)).getLast? with
      | none =>
        simp only [hg, List.foldl]
        rw [if_neg (by simp only [Bool.and_eq_true, decide_eq_true_eq]; exact fun hc => ht hc.1)]
      | some h0 =>
        simp only [hg, List.foldl]
        rw [if_neg (by simp only [Bool.and_eq_true, decide_eq_true_eq]; exact fun hc => ht hc.1)]

lemma assetValueAt_eq_spec (cy : Int) (a : Asset) (X : String)
    (hsort : a.history.Pairwise (fun h1 h2 => parseDate cy h1.date < parseDate cy h2.date))
    (hpos : ∀ h ∈ a.history, -1 < parseDate cy h.date) :
    assetValueAt cy a X = specCarryForwardValue cy a.history (parseDate cy X) := by
  unfold assetValueAt specCarryForwardValue
  cases hf : a.history.find? (fun h => h.date == X) with
  | none =>
    rw [carryScan_eq_filter_getLast cy (parseDate cy X) a.history hsort hpos]
    cases hg : (a.history.filter (fun h => parseDate cy h.date ≤ parseDate cy X)).getLast? with
    | none => simp only [hg]
    | some h0 => simp only [hg]
  | some he =>
    have hemem : he ∈ a.history := List.mem_of_find?_eq_some hf
    have hedate : he.date = X := by simpa using List.find?_some hf
    obtain ⟨s, t2, hst⟩ := List.append_of_mem hemem
    have hsort2 : List.Pairwise (fun h1 h2 => parseDate cy h1.date < parseDate cy h2.date) (s ++ he :: t2) := by
      rwa [hst] at hsort
    rw [List.pairwise_append] at hsort2
    have hcons := List.pairwise_cons.mp hsort2.2.1
    have hafter : ∀ y ∈ t2, ¬(parseDate cy y.date ≤ parseDate cy X) := by
      intro y hy hc
      have h1 := hcons.1 y hy
      rw [hedate] at h1
      omega
    have hfil : a.history.filter (fun h => parseDate cy h.date ≤ parseDate cy X) =
        s.filter (fun h => parseDate cy h.date ≤ parseDate cy X) ++ [he] := by
      rw [hst, List.filter_append]
      congr 1
      rw [List.filter_cons, if_pos (by simp [hedate])]
      have ht2 : t2.filter (fun h => parseDate cy h.date ≤ parseDate cy X) = [] := by
        rw [List.filter_eq_nil_iff]
        intro y hy
        simpa using hafter y hy
      rw [ht2]
    rw [hfil, List.getLast?_concat]

/-- An asset with a reachable duplicate-date history: two value updates on
the same day append two snapshots dated that day (1000, then 1500). -/
def exAssetDup : Asset :=
  mkAsset "1" "银行储蓄" 1500
    [{ date := "2024-05-21", value := 1000 }, { date := "2024-05-21", value := 1500 }]

/-- C4 counterexample: the duplicate-date history of exAssetDup is
reachable (creating the asset at value 1000 and updating it to 1500 on the
same day produces exactly that history), yet at the union date the trend
point carries 1000 — the exact-textual-match branch returns the first
same-date snapshot — while the latest snapshot dated at-or-before that
date (the last observation of the day) has value 1500.  This refutes the
claim's unconditional carry-forward sentence. -/
theorem C4_trend_counterexample :
    ((handleUpdateAsset "2024-05-21" "2024/5/21"
        (addAsset [] "1" "2024-05-21" "2024/5/21" "工商银行" "银行储蓄" 1000 none none none)
        "1" { value := some 1500 }).map (·.history)) = [exAssetDup.history] ∧
    globalHistory 2024 [exAssetDup] = [{ date := "2024-05-21", value := 1000 }] ∧
    specCarryForwardValue 2024 exAssetDup.history (parseDate 2024 "2024-05-21") = 1500 ∧
    (1000 : Int) ≠ 1500 := by
  refine ⟨by decide, ?_, by decide, by decide⟩
  have hgh2 : globalHistory 2024 [exAssetDup] =
      ((collectDates [exAssetDup]).mergeSort
        (fun a b => parseDate 2024 a ≤ parseDate 2024 b)).map
        (fun date => ({ date := date, value := netTotal 2024 [exAssetDup] date } : HistoryPoint)) := by
    unfold globalHistory
    rw [if_neg (by simp)]
  have hsc : collectDates [exAssetDup] = ["2024-05-21"] := by
    decide
  rw [hgh2, hsc, List.mergeSort_singleton]
  rfl

/-- C4 (amended): for a non-empty asset collection, the net-worth trend
has exactly the union of all history dates (each once), sorted
non-decreasingly by the tolerant parser; each point's value is the signed
sum of the per-asset contributions (liabilities subtracted); the per-asset
contribution refines the spec's carry-forward rule (latest snapshot
at-or-before the target, zero if none) whenever the asset's snapshot times
are strictly increasing — with duplicate-date snapshots the code returns
the first same-date snapshot rather than the latest, see the
counterexample; in particular for a two-snapshot history the contribution
on [D1, D2) is the value at D1 and before D1 it is zero; and the same-date
liability-500 / cash-2000 scenario yields the single trend point 1500. -/
theorem C4_global_history (cy : Int) (assets : List Asset) (hne : assets ≠ []) :
    (∀ dStr : String, (∃ p ∈ globalHistory cy assets, p.date = dStr) ↔
      (∃ a ∈ assets, ∃ h ∈ a.history, h.date = dStr)) ∧
    ((globalHistory cy assets).map (fun p => p.date)).Nodup ∧
    List.Pairwise (fun p q : HistoryPoint => parseDate cy p.date ≤ parseDate cy q.date)
      (globalHistory cy assets) ∧
    (∀ p ∈ globalHistory cy assets, p.value =
      (assets.map (fun a =>
        if a.category = "负债" then -(assetValueAt cy a p.date) else assetValueAt cy a p.date)).sum) ∧
    (∀ (a : Asset) (X : String),
      a.history.Pairwise (fun h1 h2 => parseDate cy h1.date < parseDate cy h2.date) →
      (∀ h ∈ a.history, -1 < parseDate cy h.date) →
      assetValueAt cy a X = specCarryForwardValue cy a.history (parseDate cy X)) ∧
    (∀ (a : Asset) (D1 D2 X : String) (v1 v2 : Int),
      a.history = [{ date := D1, value := v1 }, { date := D2, value := v2 }] →
      -1 < parseDate cy D1 → parseDate cy D1 < parseDate cy D2 →
      ((parseDate cy D1 ≤ parseDate cy X → parseDate cy X < parseDate cy D2 →
          assetValueAt cy a X = v1) ∧
       (parseDate cy X < parseDate cy D1 → assetValueAt cy a X = 0))) ∧
    globalHistory cy exScenarioAssets = [{ date := "2024-05-20", value := 1500 }] := by
  have hgh : globalHistory cy assets =
      ((collectDates assets).mergeSort (fun a b => parseDate cy a ≤ parseDate cy b)).map
        (fun date => ({ date := date, value := netTotal cy assets date } : HistoryPoint)) := by
    unfold globalHistory
    rw [if_neg (by rw [List.isEmpty_eq_false.mpr hne]; simp)]
  refine ⟨?_, ?_, ?_, ?_, fun a X hs hp => assetValueAt_eq_spec cy a X hs hp, ?_, ?_⟩
  · intro dStr
    rw [hgh]
    constructor
    · rintro ⟨p, hp, rfl⟩
      obtain ⟨d, hd, rfl⟩ := List.mem_map.mp hp
      exact (mem_collectDates _ _).mp ((List.mergeSort_perm _ _).mem_iff.mp hd)
    · intro h
      refine ⟨{ date := dStr, value := netTotal cy assets dStr },
        List.mem_map.mpr ⟨dStr, ?_, rfl⟩, rfl⟩
      exact (List.mergeSort_perm _ _).mem_iff.mpr ((mem_collectDates _ _).mpr h)
  · rw [hgh, List.map_map]
    have hcomp : ((fun p : HistoryPoint => p.date) ∘
        (fun date => ({ date := date, value := netTotal cy assets date } : HistoryPoint))) =
        fun d => d := rfl
    rw [hcomp, List.map_id']
    exact ((List.mergeSort_perm _ _).nodup_iff).mpr (nodup_collectDates assets)
  · rw [hgh, List.pairwise_map]
    refine List.Pairwise.imp ?_ (List.sorted_mergeSort ?_ ?_ (collectDates assets))
    · exact fun h => by simpa using h
    · intro a b c hab hbc
      simp only [decide_eq_true_eq] at hab hbc ⊢
      omega
    · intro a b
      simp only [Bool.or_eq_true, decide_eq_true_eq]
      omega
  · intro p hp
    rw [hgh] at hp
    obtain ⟨d, hd, rfl⟩ := List.mem_map.mp hp
    exact netTotal_eq_sum cy assets d
  · intro a D1 D2 X v1 v2 hh h0 h12
    have hsorted : a.history.Pairwise
        (fun h1 h2 => parseDate cy h1.date < parseDate cy h2.date) := by
      rw [hh]
      simp [List.pairwise_cons, h12]
    have hposl : ∀ h ∈ a.history, -1 < parseDate cy h.date := by
      intro h hmem
      rw [hh] at hmem
      simp only [List.mem_cons, List.mem_singleton, List.not_mem_nil, or_false] at hmem
      rcases hmem with rfl | rfl
      · exact h0
      · show -1 < parseDate cy D2
        omega
    have hv := assetValueAt_eq_spec cy a X hsorted hposl
    rw [hv, hh]
    constructor
    · intro hle hlt
      unfold specCarryForwardValue
      rw [List.filter_cons, if_pos (by simpa using hle),
        List.filter_cons, if_neg (by simp only [decide_eq_true_eq]; omega), List.filter_nil]
      rfl
    · intro hlt1
      unfold specCarryForwardValue
      rw [List.filter_cons, if_neg (by simp only [decide_eq_true_eq]; omega),
        List.filter_cons, if_neg (by simp only [decide_eq_true_eq]; omega), List.filter_nil]
      rfl
  · have hgh2 : globalHistory cy exScenarioAssets =
        ((collectDates exScenarioAssets).mergeSort
          (fun a b => parseDate cy a ≤ parseDate cy b)).map
          (fun date => ({ date := date, value := netTotal cy exScenarioAssets date } : HistoryPoint)) := by
      unfold globalHistory
      rw [if_neg (by simp [exScenarioAssets])]
    have hsc : collectDates exScenarioAssets = ["2024-05-20"] := by
      decide
    rw [hgh2, hsc, List.mergeSort_singleton]
    rfl

/-- A sample asset with two snapshots at increasing dates, exercising the
carry-forward rule. -/
def exAssetCF : Asset :=
  mkAsset "3" "基金" 9 [{ date := "2024-03-01", value := 7 }, { date := "2024-04-01", value := 9 }]

/-- C4 witness: the theorem at concrete data — the two-snapshot asset
contributes 7 on a date between its snapshots and 0 before the first one,
the liability/cash scenario produces the single point 1500, and the union
date 2024-03-01 appears in the asset's trend. -/
theorem C4_global_history_witness :
    assetValueAt 2024 exAssetCF "2024-03-10" = 7 ∧
    assetValueAt 2024 exAssetCF "2024-02-01" = 0 ∧
    globalHistory 2024 exScenarioAssets = [{ date := "2024-05-20", value := 1500 }] ∧
    (∃ p ∈ globalHistory 2024 [exAssetCF], p.date = "2024-03-01") := by
  have h := C4_global_history 2024 [exAssetCF] (by decide)
  have h6 := h.2.2.2.2.2.1 exAssetCF "2024-03-01" "2024-04-01"
  exact ⟨(h6 "2024-03-10" 7 9 rfl (by decide) (by decide)).1 (by decide) (by decide),
    (h6 "2024-02-01" 7 9 rfl (by decide) (by decide)).2 (by decide),
    h.2.2.2.2.2.2,
    (h.1 "2024-03-01").mpr (by decide)⟩

end Asset01
